import Mathlib

/-!
Shallow embedding of `src/cmds/tx.py` (a chia-blockchain fork): unsigned
transaction assembly (`create_unsigned_transaction`), condition encoding
(`make_solution`), the spend-bundle codec (`encode_spendbundle` /
`decode_spendbundle`), and the declarative JSON transaction parser
(`create_unsigned_tx_from_json`).

Collaborator code living outside `src/` (puzzle programs and their tree
hash, the condition constructors of `puzzle_utils`, BLS group elements,
the `SpendBundle` byte serialization, hex utilities) is modelled from the
specification; each such definition carries a comment saying so.
-/

namespace ChiaTx

/-- Byte sequences are lists of naturals; the well-formedness predicates
used by the codec require entries below 256 where the wire matters. -/
abbrev Bytes := List Nat

/-- Error taxonomy of the spec (§7) together with the Python runtime
errors the source can raise.  `malformedDescription` is the parser's
`KeyError` on a missing dictionary key; `typeError` and `valueError` are
the other parser-input failures, which the spec's taxonomy also files
under `MalformedDescription`.  `puzzleMismatch` is the `AssertionError`
of the two tree-hash asserts, `invalidArgument` covers the empty-inputs
`ValueError` and the negative-fee assert, `insufficientFunds` the
conservation `ValueError`, and `attributeError` a Python
`AttributeError` (access of a field an object does not have). -/
inductive Err
  | invalidArgument
  | insufficientFunds
  | puzzleMismatch
  | malformedDescription
  | typeError
  | valueError
  | attributeError
  | malformedBundle
  deriving DecidableEq

deriving instance DecidableEq for Except

/-- `src.types.coin.Coin` (outside `src/`): modelled from the spec's data
model (§3): `(parent_id, puzzle_hash, amount)` and nothing else — in
particular a `Coin` has no `pubkey` field. -/
structure Coin where
  parent_id : Bytes
  puzzle_hash : Bytes
  amount : Int
  deriving DecidableEq, Inhabited

/-- `SpendRequest` from `tx.py`: a desired output. -/
structure SpendRequest where
  puzzle_hash : Bytes
  amount : Int
  deriving DecidableEq

/-- The dictionaries `{"puzzlehash": ..., "amount": ...}` built for
`make_solution`'s `primaries`. -/
structure Primary where
  puzzlehash : Bytes
  amount : Int
  deriving DecidableEq

/-- The dictionary `{"id": ...}` expected for `make_solution`'s `me`. -/
structure MeInfo where
  id : Bytes
  deriving DecidableEq

/-- Conditions, modelled from the spec (§3): the `make_*_condition`
constructors of `src.wallet.puzzles.puzzle_utils` live outside `src/`. -/
inductive Condition
  | createCoin (puzzle_hash : Bytes) (amount : Int)
  | assertCoinConsumed (coin_id : Bytes)
  | assertTimeExceeds (time : Int)
  | assertMyCoinId (id : Bytes)
  | assertFee (amount : Int)
  deriving DecidableEq

/-- Puzzle / solution programs.  Modelled from the spec (§6, §9): the
core treats programs as opaque deterministic values produced by the four
constructions the source uses — `puzzle_for_pk`, `binutils.assemble` of
a source text (kept as its character codes), `Program.to([p, s])`, and
`solution_for_conditions`. -/
inductive Program
  | fromPk (pk : Bytes)
  | assembled (src : List Nat)
  | pair (p q : Program)
  | ofConditions (cs : List Condition)
  deriving DecidableEq

/-- One entry of the `inputs` list of `create_unsigned_transaction`:
the dictionary `{"coin": ..., "pubkey": ...}` built by the parser. -/
structure InputEntry where
  coin : Coin
  pubkey : Bytes
  deriving DecidableEq, Inhabited

/-- `src.types.coin_solution.CoinSolution` (outside `src/`): modelled
from the spec's data model (§3): a coin paired with the revealed
`[puzzle, solution]` program. -/
structure CoinSolution where
  coin : Coin
  solution : Program
  deriving DecidableEq

/-- `src.types.spend_bundle.SpendBundle` (outside `src/`): modelled from
the spec's data model (§3). -/
structure SpendBundle where
  coin_solutions : List CoinSolution
  aggregated_signature : Bytes
  deriving DecidableEq

/-- `G2Element.infinity()` of blspy: modelled from the spec (§3, §4.4) as
the fixed 96-byte group-identity value (compressed-infinity leading byte
followed by zeros). -/
def g2Infinity : Bytes := 192 :: List.replicate 95 0

/-! ## Byte-level encoding primitives

The spec (§6) fixes the wire format of a bundle as the binary
concatenation of the coin solutions' fields followed by the fixed-width
signature; the concrete field widths (32-byte hashes, 8-byte amounts,
4-byte list-length prefixes) are modelled from the spec's data model. -/

/-- Big-endian encoding of `n` into exactly `w` bytes (modular in `n`). -/
def natToBE : Nat → Nat → List Nat
  | 0, _ => []
  | w + 1, n => natToBE w (n / 256) ++ [n % 256]

/-- Big-endian value of a byte list. -/
def beToNat (l : List Nat) : Nat := l.foldl (fun a b => a * 256 + b) 0

/-- Read a fixed-width big-endian natural from the front of a stream. -/
def readBE (w : Nat) (l : List Nat) : Option (Nat × List Nat) :=
  if w ≤ l.length then some (beToNat (l.take w), l.drop w) else none

/-- Read a fixed number of raw bytes from the front of a stream. -/
def readN (n : Nat) (l : List Nat) : Option (Bytes × List Nat) :=
  if n ≤ l.length then some (l.take n, l.drop n) else none

/-- Wire encoding of a condition: a tag byte, length-prefixed variable
byte fields, 8-byte amounts. -/
def condBytes : Condition → List Nat
  | .createCoin ph a => 0 :: (natToBE 4 ph.length ++ (ph ++ natToBE 8 a.toNat))
  | .assertCoinConsumed cid => 1 :: (natToBE 4 cid.length ++ cid)
  | .assertTimeExceeds t => 2 :: natToBE 8 t.toNat
  | .assertMyCoinId cid => 3 :: (natToBE 4 cid.length ++ cid)
  | .assertFee a => 4 :: natToBE 8 a.toNat

/-- Well-formedness of a condition for the wire: byte fields are real
bytes and fit a 4-byte length, amounts fit an unsigned 64-bit value. -/
def condWfB : Condition → Bool
  | .createCoin ph a =>
      decide (ph.length < 2 ^ 32) && ph.all (fun b => decide (b < 256)) &&
      decide (0 ≤ a) && decide (a < 2 ^ 64)
  | .assertCoinConsumed cid =>
      decide (cid.length < 2 ^ 32) && cid.all (fun b => decide (b < 256))
  | .assertTimeExceeds t => decide (0 ≤ t) && decide (t < 2 ^ 64)
  | .assertMyCoinId cid =>
      decide (cid.length < 2 ^ 32) && cid.all (fun b => decide (b < 256))
  | .assertFee a => decide (0 ≤ a) && decide (a < 2 ^ 64)

/-- Wire encoding of a program value: a tag byte per constructor, with
length or count prefixes for the variable parts.  Character codes of
assembled source text are stored as 4-byte values. -/
def progBytes : Program → List Nat
  | .fromPk pk => 0 :: (natToBE 4 pk.length ++ pk)
  | .assembled cs => 1 :: (natToBE 4 cs.length ++ cs.flatMap (natToBE 4))
  | .pair p q => 2 :: (progBytes p ++ progBytes q)
  | .ofConditions cs => 3 :: (natToBE 4 cs.length ++ cs.flatMap condBytes)

/-- Well-formedness of a program for the wire. -/
def progWfB : Program → Bool
  | .fromPk pk => decide (pk.length < 2 ^ 32) && pk.all (fun b => decide (b < 256))
  | .assembled cs => decide (cs.length < 2 ^ 32) && cs.all (fun c => decide (c < 2 ^ 32))
  | .pair p q => progWfB p && progWfB q
  | .ofConditions cs => decide (cs.length < 2 ^ 32) && cs.all condWfB

/-- `Program.get_tree_hash` (outside `src/`): modelled from the spec
(§6): a deterministic structural hash of the program value, opaque to
the core beyond equality.  Modelled as the injective structural
serialization, which is deterministic and collision-free. -/
def treeHash (p : Program) : Bytes := progBytes p

/-- `p2_delegated_puzzle.puzzle_for_pk` (outside `src/`): modelled from
the spec (§6): the deterministic puzzle derived from a public key. -/
def puzzle_for_pk (pk : Bytes) : Program := .fromPk pk

/-- `p2_delegated_puzzle.solution_for_conditions` (outside `src/`):
modelled from the spec (§4.1): the solution is the list of conditions,
wrapped as a program value with no further structure. -/
def solution_for_conditions (cs : List Condition) : Program := .ofConditions cs

/-! ## Condition Encoder: `make_solution` (tx.py lines 45-63) -/

/-- `make_solution(primaries=None, min_time=0, me=None, consumed=None,
fee=0)`.  `assert fee >= 0` is the spec's `InvalidArgument` on a
negative fee.  The Python truthiness guards (`if primaries:` etc.) agree
with mapping over `Option.getD _ []`, since looping over an empty list
appends nothing. -/
def make_solution (primaries : Option (List Primary)) (min_time : Int)
    (me : Option MeInfo) (consumed : Option (List Bytes)) (fee : Int) :
    Except Err Program :=
  if fee < 0 then .error .invalidArgument
  else
    .ok (solution_for_conditions
      (((primaries.getD []).map fun p => Condition.createCoin p.puzzlehash p.amount)
        ++ ((consumed.getD []).map fun c => Condition.assertCoinConsumed c)
        ++ (if min_time > 0 then [Condition.assertTimeExceeds min_time] else [])
        ++ (match me with
            | some m => [Condition.assertMyCoinId m.id]
            | none => [])
        ++ (if fee ≠ 0 then [Condition.assertFee fee] else [])))

/-! ## Transaction Assembler: `create_unsigned_transaction`
(tx.py lines 75-124) -/

/-- The loop `for i in inputs:` over the non-origin inputs (tx.py lines
116-122).  Its body evaluates `puzzle_for_pk(coin.pubkey)` where `coin`
is a `Coin`; a `Coin` has no `pubkey` attribute, so the first iteration
raises `AttributeError` before any `CoinSolution` is built.  An empty
list of remaining inputs skips the loop. -/
def processRest : List InputEntry → Except Err (List CoinSolution)
  | [] => .ok []
  | _ :: _ => .error .attributeError

/-- The `sent_value` computed from `spend_requests` (0 when `None`). -/
def sentValue (spend_requests : Option (List SpendRequest)) : Int :=
  match spend_requests with
  | none => 0
  | some reqs => (reqs.map (fun r => r.amount)).sum

/-- The `outputs` list of `{"puzzlehash", "amount"}` dictionaries built
from `spend_requests`. -/
def outputsOf (spend_requests : Option (List SpendRequest)) : List Primary :=
  match spend_requests with
  | none => []
  | some reqs => reqs.map fun r => { puzzlehash := r.puzzle_hash, amount := r.amount }

/-- The `input_value` of an inputs list: the sum of all input coin
amounts (the popped origin plus the remaining inputs). -/
def inputValue (ins : List InputEntry) : Int :=
  (ins.map (fun i => i.coin.amount)).sum

/-- `create_unsigned_transaction(inputs, spend_requests, validate)`.

Because the source mutates the caller's `inputs` list (`origin =
inputs.pop()` removes its last element), the embedding returns, next to
the result, the final states of the two caller-supplied lists.  Errors,
in source order: `ValueError` on missing/empty inputs
(`invalidArgument`), the conservation `ValueError`
(`insufficientFunds`, checked after the pop), the origin tree-hash
`assert` (`puzzleMismatch`), then the per-input loop (which raises
`AttributeError` whenever a non-origin input exists, see
`processRest`). -/
def create_unsigned_transaction (inputs : Option (List InputEntry))
    (spend_requests : Option (List SpendRequest)) (validate : Bool) :
    Except Err (List CoinSolution) × Option (List InputEntry) × Option (List SpendRequest) :=
  match inputs with
  | none => (.error .invalidArgument, none, spend_requests)
  | some ins =>
    if ins.length < 1 then (.error .invalidArgument, some ins, spend_requests)
    else
      match ins.getLast? with
      | none => (.error .invalidArgument, some ins, spend_requests)
      | some origin =>
        let rest := ins.dropLast
        let input_value := inputValue ins
        let sent_value := sentValue spend_requests
        let outputs := outputsOf spend_requests
        if validate ∧ sent_value ≥ input_value then
          (.error .insufficientFunds, some rest, spend_requests)
        else
          let origin_puzzle := puzzle_for_pk origin.pubkey
          if treeHash origin_puzzle ≠ origin.coin.puzzle_hash then
            (.error .puzzleMismatch, some rest, spend_requests)
          else
            match make_solution (some outputs) 0 none none 0 with
            | .error e => (.error e, some rest, spend_requests)
            | .ok solution =>
              match processRest rest with
              | .error e => (.error e, some rest, spend_requests)
              | .ok others =>
                (.ok ({ coin := origin.coin,
                        solution := Program.pair origin_puzzle solution } :: others),
                 some rest, spend_requests)

/-! ## Hex utilities

`bytes.hex()` / `bytes.fromhex` (Python standard library) and
`src.util.byte_types.hexstr_to_bytes` (outside `src/`): modelled from
the spec's wire formats (§6), which exchange hex strings for byte
sequences.  `bytes.fromhex` accepts both letter cases; encoding emits
lower case. -/

/-- The lower-case hex digit for a nibble. -/
def hexDigitChar (n : Nat) : Char :=
  Char.ofNat (if n < 10 then 48 + n else 87 + n)

/-- Two hex digits for one byte. -/
def byteToHex (b : Nat) : List Char := [hexDigitChar (b / 16), hexDigitChar (b % 16)]

/-- The value of one hex digit, upper or lower case. -/
def hexDigitVal (c : Char) : Option Nat :=
  if 48 ≤ c.toNat ∧ c.toNat ≤ 57 then some (c.toNat - 48)
  else if 97 ≤ c.toNat ∧ c.toNat ≤ 102 then some (c.toNat - 87)
  else if 65 ≤ c.toNat ∧ c.toNat ≤ 70 then some (c.toNat - 55)
  else none

/-- `bytes.fromhex` over a character list: pairs of hex digits;
`ValueError` on odd length or a non-hex character. -/
def hexToBytesL : List Char → Except Err Bytes
  | [] => .ok []
  | [_] => .error .valueError
  | c1 :: c2 :: rest =>
    match hexDigitVal c1, hexDigitVal c2 with
    | some hi, some lo =>
      match hexToBytesL rest with
      | .ok bs => .ok ((16 * hi + lo) :: bs)
      | .error e => .error e
    | _, _ => .error .valueError

/-- `hexstr_to_bytes` applied to a string value. -/
def hexstr_to_bytes (s : String) : Except Err Bytes := hexToBytesL s.toList

/-- `bytes(...).hex()` over our byte lists. -/
def bytesToHex (l : Bytes) : String := { data := l.flatMap byteToHex }

/-! ## JSON values and the Python dictionary operations the parser uses -/

/-- JSON values as `json.loads` delivers them to the parser: numbers,
strings, arrays and objects.  Objects are association lists with the
keys assumed distinct (as produced by a JSON parse). -/
inductive Json
  | num (n : Int)
  | str (s : String)
  | arr (xs : List Json)
  | obj (kvs : List (String × Json))

/-- Python `d[k]`: value lookup, `KeyError` (`malformedDescription`) on
a missing key, `TypeError` when subscripting a non-object with a
string. -/
def Json.get : Json → String → Except Err Json
  | .obj kvs, k =>
    match kvs.find? (fun kv => kv.1 == k) with
    | some kv => .ok kv.2
    | none => .error .malformedDescription
  | _, _ => .error .typeError

/-- Whether an object carries a key (`False` on non-objects; the
membership tests the parser runs are modelled precisely by `pyIn`). -/
def Json.hasKeyB : Json → String → Bool
  | .obj kvs, k => kvs.any (fun kv => kv.1 == k)
  | _, _ => false

/-- String equality test Python's `==` performs between a string and an
arbitrary JSON value (`False` across types). -/
def eqStrJson (k : String) : Json → Bool
  | .str s => s == k
  | _ => false

/-- Substring containment over character lists (Python `sub in s` for
strings). -/
def listHasSub (pat : List Char) : List Char → Bool
  | [] => pat.isEmpty
  | c :: rest => pat.isPrefixOf (c :: rest) || listHasSub pat rest

/-- Python `k in s` for the JSON values at hand: key test on objects,
substring test on strings, membership on arrays, `TypeError` on
numbers. -/
def pyIn (k : String) : Json → Except Err Bool
  | .obj kvs => .ok (kvs.any (fun kv => kv.1 == k))
  | .str s => .ok (listHasSub k.toList s.toList)
  | .arr xs => .ok (xs.any (eqStrJson k))
  | .num _ => .error .typeError

/-- Coerce to a string value (`TypeError` otherwise: the value is about
to be consumed by `bytes.fromhex` / `binutils.assemble`). -/
def Json.asStr : Json → Except Err String
  | .str s => .ok s
  | _ => .error .typeError

/-- Coerce to a numeric value (`TypeError` otherwise: the value is about
to be consumed as a coin or request amount). -/
def Json.asNum : Json → Except Err Int
  | .num n => .ok n
  | _ => .error .typeError

/-- Coerce to an array for iteration (`TypeError` otherwise; iteration
over other Python values either raises or feeds elements of the wrong
type into the subscript operations that follow). -/
def Json.asArr : Json → Except Err (List Json)
  | .arr xs => .ok xs
  | _ => .error .typeError

/-- The character codes of a string, the opaque content handed to
`binutils.assemble`. -/
def strCodes (s : String) : List Nat := s.toList.map Char.toNat

/-- `uint64(...)` of `src.util.ints` (outside `src/`): modelled from the
spec's data model (§3): amounts are unsigned 64-bit, out-of-range values
are rejected (`ValueError`). -/
def uint64OfInt (a : Int) : Except Err Int :=
  if 0 ≤ a ∧ a < 2 ^ 64 then .ok a else .error .valueError

/-- `G1Element.from_bytes` of blspy (outside `src/`): modelled from the
spec (§3, §6): a public key is a fixed 48-byte value; other lengths are
rejected (`ValueError`).  Group-membership checking is abstracted away —
the core treats keys as opaque bytes. -/
def g1FromBytes (b : Bytes) : Except Err Bytes :=
  if b.length = 48 then .ok b else .error .valueError

/-- List comprehension over `Except`: first failure aborts, order kept. -/
def mapE (f : α → Except Err β) : List α → Except Err (List β)
  | [] => .ok []
  | x :: xs => do
    let y ← f x
    let ys ← mapE f xs
    .ok (y :: ys)

/-! ## Declarative Transaction Parser: `create_unsigned_tx_from_json`
(tx.py lines 127-165).  String keys are named here once. -/

def kSpends : String := "spends"
def kSpendRequests : String := "spend_requests"
def kInputCoins : String := "input_coins"
def kCoin : String := "coin"
def kParentId : String := "parent_id"
def kPuzzleHash : String := "puzzle_hash"
def kAmount : String := "amount"
def kPubkey : String := "pubkey"
def kSolution : String := "solution"
def kInputCoin : String := "input_coin"
def kPuzzleReveal : String := "puzzle_reveal"

/-- One element of the `input_coins` comprehension (tx.py lines
134-144): builds `{"coin": Coin(...), "pubkey": G1Element...}`,
evaluating the subscripts and conversions in source order. -/
def parseInputCoinEntry (i : Json) : Except Err InputEntry := do
  let c ← i.get kCoin
  let pidB ← hexstr_to_bytes (← (← c.get kParentId).asStr)
  let phB ← hexstr_to_bytes (← (← c.get kPuzzleHash).asStr)
  let amt ← (← c.get kAmount).asNum
  let pk ← g1FromBytes (← hexstr_to_bytes (← (← i.get kPubkey).asStr))
  .ok { coin := { parent_id := pidB, puzzle_hash := phB, amount := amt }, pubkey := pk }

/-- One element of the `spend_requests` comprehension (tx.py lines
145-148): `SpendRequest(hexstr_to_bytes(s["puzzle_hash"]),
s["amount"])`. -/
def parseSpendRequestEntry (r : Json) : Except Err SpendRequest := do
  let phB ← hexstr_to_bytes (← (← r.get kPuzzleHash).asStr)
  let amt ← (← r.get kAmount).asNum
  .ok { puzzle_hash := phB, amount := amt }

/-- The descriptive-form branch of one spend entry (tx.py lines
131-150): fetch `input_coins` and `spend_requests`, run both
comprehensions, then delegate to the Assembler (`validate` left at its
default `True`). -/
def descriptiveSpend (s : Json) : Except Err (List CoinSolution) := do
  let icj ← s.get kInputCoins
  let srj ← s.get kSpendRequests
  let input_coins ← mapE parseInputCoinEntry (← icj.asArr)
  let spend_requests ← mapE parseSpendRequestEntry (← srj.asArr)
  (create_unsigned_transaction (some input_coins) (some spend_requests) true).1

/-- The raw-form branch up to and including the puzzle reveal (tx.py
lines 152-157): the input coin's three fields (with `uint64` on the
amount), then `binutils.assemble(s["puzzle_reveal"])`. -/
def rawCoinAndPuzzle (s : Json) : Except Err (Coin × Program) := do
  let ic ← s.get kInputCoin
  let pidB ← hexstr_to_bytes (← (← ic.get kParentId).asStr)
  let phB ← hexstr_to_bytes (← (← ic.get kPuzzleHash).asStr)
  let amt ← uint64OfInt (← (← ic.get kAmount).asNum)
  let prSrc ← (← s.get kPuzzleReveal).asStr
  .ok ({ parent_id := pidB, puzzle_hash := phB, amount := amt },
       Program.assembled (strCodes prSrc))

/-- The raw-form branch of one spend entry (tx.py lines 151-162): after
the coin and puzzle reveal, `assert puzzle_reveal.get_tree_hash() ==
input_coin.puzzle_hash` (fatal `PuzzleMismatch`), and only then is the
`solution` field read and the `CoinSolution` built. -/
def rawSpend (s : Json) : Except Err CoinSolution := do
  let cp ← rawCoinAndPuzzle s
  if treeHash cp.2 ≠ cp.1.puzzle_hash then .error .puzzleMismatch
  else do
    let solSrc ← (← s.get kSolution).asStr
    .ok { coin := cp.1,
          solution := Program.pair cp.2 (Program.assembled (strCodes solSrc)) }

/-- Processing of one entry of the `spends` list: the
`"spend_requests" in s` / `"solution" in s` dispatch; an entry matching
neither form is silently skipped (contributes no coin solutions). -/
def parseSpend (s : Json) : Except Err (List CoinSolution) := do
  if ← pyIn kSpendRequests s then descriptiveSpend s
  else if ← pyIn kSolution s then do
    let cs ← rawSpend s
    .ok [cs]
  else .ok []

/-- The `for s in j["spends"]` loop: entries are processed in order and
their coin solutions concatenated; the first failure aborts the call. -/
def processSpends : List Json → Except Err (List CoinSolution)
  | [] => .ok []
  | s :: rest => do
    let cs ← parseSpend s
    let more ← processSpends rest
    .ok (cs ++ more)

/-- `create_unsigned_tx_from_json(json_tx)` over the parsed JSON value
(`json.loads` itself is the Python standard library): collects every
entry's coin solutions and pairs them with the `G2Element.infinity()`
placeholder signature. -/
def create_unsigned_tx_from_json (j : Json) : Except Err SpendBundle := do
  let spends ← processSpends (← (← j.get kSpends).asArr)
  .ok { coin_solutions := spends, aggregated_signature := g2Infinity }

/-! ## Spend Bundle Codec: `encode_spendbundle` / `decode_spendbundle`
(tx.py lines 200-205)

`bytes(spend_bundle)` and `SpendBundle.from_bytes` live outside `src/`
(`src.types.spend_bundle`); the byte layout is modelled from the spec
(§6): the coin-solution sequence (each coin's three fields followed by
its `[puzzle, solution]` program encoding) and then the fixed-width
aggregated signature, with 4-byte length prefixes delimiting the
variable-length parts.  Decoding consumes the whole input or fails
(`MalformedBundle`), never building a partial bundle. -/

/-- Decode one condition from the front of a stream. -/
def condDecode : List Nat → Option (Condition × List Nat)
  | [] => none
  | t :: rest =>
    if t = 0 then do
      let (len, r1) ← readBE 4 rest
      let (ph, r2) ← readN len r1
      let (a, r3) ← readBE 8 r2
      some (.createCoin ph (Int.ofNat a), r3)
    else if t = 1 then do
      let (len, r1) ← readBE 4 rest
      let (cid, r2) ← readN len r1
      some (.assertCoinConsumed cid, r2)
    else if t = 2 then do
      let (v, r1) ← readBE 8 rest
      some (.assertTimeExceeds (Int.ofNat v), r1)
    else if t = 3 then do
      let (len, r1) ← readBE 4 rest
      let (cid, r2) ← readN len r1
      some (.assertMyCoinId cid, r2)
    else if t = 4 then do
      let (v, r1) ← readBE 8 rest
      some (.assertFee (Int.ofNat v), r1)
    else none

/-- Decode a counted sequence of conditions. -/
def condsDecode : Nat → List Nat → Option (List Condition × List Nat)
  | 0, l => some ([], l)
  | n + 1, l => do
    let (c, r1) ← condDecode l
    let (cs, r2) ← condsDecode n r1
    some (c :: cs, r2)

/-- Decode a counted sequence of 4-byte values. -/
def natsDecode : Nat → List Nat → Option (List Nat × List Nat)
  | 0, l => some ([], l)
  | n + 1, l => do
    let (v, r1) ← readBE 4 l
    let (vs, r2) ← natsDecode n r1
    some (v :: vs, r2)

/-- Decode one program value from the front of a stream; the fuel only
serves termination and any value at least the nesting depth of the
encoded program is enough. -/
def progDecodeF : Nat → List Nat → Option (Program × List Nat)
  | 0, _ => none
  | _ + 1, [] => none
  | fuel + 1, t :: rest =>
    if t = 0 then do
      let (len, r1) ← readBE 4 rest
      let (pk, r2) ← readN len r1
      some (.fromPk pk, r2)
    else if t = 1 then do
      let (len, r1) ← readBE 4 rest
      let (cs, r2) ← natsDecode len r1
      some (.assembled cs, r2)
    else if t = 2 then do
      let (p, r1) ← progDecodeF fuel rest
      let (q, r2) ← progDecodeF fuel r1
      some (.pair p q, r2)
    else if t = 3 then do
      let (n, r1) ← readBE 4 rest
      let (cs, r2) ← condsDecode n r1
      some (.ofConditions cs, r2)
    else none

/-- Nesting depth of a program value, a lower bound for decode fuel. -/
def progDepth : Program → Nat
  | .pair p q => 1 + max (progDepth p) (progDepth q)
  | _ => 1

/-- Wire bytes of one coin: 32-byte parent id, 32-byte puzzle hash,
8-byte big-endian amount. -/
def coinBytes (c : Coin) : List Nat :=
  c.parent_id ++ (c.puzzle_hash ++ natToBE 8 c.amount.toNat)

/-- Wire bytes of one coin solution: the coin's fields, then the
length-prefixed program encoding. -/
def coinSolutionBytes (cs : CoinSolution) : List Nat :=
  coinBytes cs.coin ++ (natToBE 4 (progBytes cs.solution).length ++ progBytes cs.solution)

/-- Wire bytes of a bundle: 4-byte coin-solution count, the coin
solutions in order, then the 96-byte aggregated signature. -/
def spendBundleBytes (b : SpendBundle) : List Nat :=
  natToBE 4 b.coin_solutions.length ++
    (b.coin_solutions.flatMap coinSolutionBytes ++ b.aggregated_signature)

/-- Well-formedness of a coin for the wire: 32-byte hash fields made of
real bytes and an unsigned 64-bit amount. -/
def coinWfB (c : Coin) : Bool :=
  decide (c.parent_id.length = 32) && c.parent_id.all (fun b => decide (b < 256)) &&
  decide (c.puzzle_hash.length = 32) && c.puzzle_hash.all (fun b => decide (b < 256)) &&
  decide (0 ≤ c.amount) && decide (c.amount < 2 ^ 64)

/-- Well-formedness of a coin solution for the wire. -/
def coinSolutionWfB (cs : CoinSolution) : Bool :=
  coinWfB cs.coin && progWfB cs.solution &&
    decide ((progBytes cs.solution).length < 2 ^ 32)

/-- Validity of a bundle for the wire (§4.3's "valid SpendBundle"):
well-formed coin solutions, a count below the 4-byte bound, and a
96-byte signature of real bytes. -/
def spendBundleWfB (b : SpendBundle) : Bool :=
  decide (b.coin_solutions.length < 2 ^ 32) &&
  b.coin_solutions.all coinSolutionWfB &&
  decide (b.aggregated_signature.length = 96) &&
  b.aggregated_signature.all (fun x => decide (x < 256))

/-- Decode a counted sequence of coin solutions. -/
def coinSolutionsDecode : Nat → List Nat → Option (List CoinSolution × List Nat)
  | 0, l => some ([], l)
  | n + 1, l => do
    let (pid, r1) ← readN 32 l
    let (ph, r2) ← readN 32 r1
    let (amt, r3) ← readBE 8 r2
    let (plen, r4) ← readBE 4 r3
    let (pb, r5) ← readN plen r4
    let (p, rem) ← progDecodeF pb.length pb
    if rem.isEmpty then do
      let (more, r6) ← coinSolutionsDecode n r5
      some ({ coin := { parent_id := pid, puzzle_hash := ph, amount := Int.ofNat amt },
              solution := p } :: more, r6)
    else none

/-- `SpendBundle.from_bytes`: all-or-nothing decoding of the wire
layout; any leftover or missing bytes fail with `MalformedBundle`. -/
def spendBundleFromBytes (l : List Nat) : Except Err SpendBundle :=
  match (do
    let (n, r1) ← readBE 4 l
    let (css, r2) ← coinSolutionsDecode n r1
    let (sig, r3) ← readN 96 r2
    if r3.isEmpty then some (SpendBundle.mk css sig) else none :
      Option SpendBundle) with
  | some b => .ok b
  | none => .error .malformedBundle

/-- `encode_spendbundle(spend_bundle)`: `bytes(spend_bundle).hex()`. -/
def encode_spendbundle (b : SpendBundle) : String :=
  bytesToHex (spendBundleBytes b)

/-- `decode_spendbundle(spend_bundle_bytes)`:
`SpendBundle.from_bytes(bytes.fromhex(...))`. -/
def decode_spendbundle (s : String) : Except Err SpendBundle := do
  spendBundleFromBytes (← hexToBytesL s.toList)

/-! ## Required-field predicates for the parser

The spec's `MalformedDescription` (§7) covers the parser-input
failures; in Python these surface as `KeyError` (a missing required
field), `TypeError` or `ValueError`.  `requiredFieldsOK` states that
every field the chosen spend form requires is present (the two
discriminator keys `spend_requests` / `solution` choose the form and
are therefore not themselves "required" fields — an entry carrying
neither is silently skipped). -/

/-- Errors raised while reading the description itself, the class the
spec's taxonomy calls `MalformedDescription`. -/
def isMalformedClass : Err → Bool
  | .malformedDescription => true
  | .typeError => true
  | .valueError => true
  | _ => false

/-- Lookup with a dummy default, used only to state field predicates. -/
def Json.getD (j : Json) (k : String) : Json :=
  match j.get k with
  | .ok v => v
  | .error _ => .num 0

/-- Required fields of one `input_coins` element. -/
def coinEntryFieldsOK (i : Json) : Bool :=
  i.hasKeyB kCoin &&
  (i.getD kCoin).hasKeyB kParentId &&
  (i.getD kCoin).hasKeyB kPuzzleHash &&
  (i.getD kCoin).hasKeyB kAmount &&
  i.hasKeyB kPubkey

/-- Required fields of one `spend_requests` element. -/
def requestEntryFieldsOK (r : Json) : Bool :=
  r.hasKeyB kPuzzleHash && r.hasKeyB kAmount

/-- Required fields of a descriptive-form entry. -/
def descriptiveFieldsOK (s : Json) : Bool :=
  s.hasKeyB kInputCoins &&
  (match s.getD kInputCoins with
   | .arr l => l.all coinEntryFieldsOK
   | _ => true) &&
  (match s.getD kSpendRequests with
   | .arr l => l.all requestEntryFieldsOK
   | _ => true)

/-- Required fields of a raw-form entry that are read unconditionally
(the `solution` field is only read once the tree-hash assert has
passed, so a missing `solution` surfaces as `PuzzleMismatch` first when
the hash is wrong; it is listed here because the parser reads it on
every path that accepts the entry). -/
def rawFieldsOK (s : Json) : Bool :=
  s.hasKeyB kInputCoin &&
  (s.getD kInputCoin).hasKeyB kParentId &&
  (s.getD kInputCoin).hasKeyB kPuzzleHash &&
  (s.getD kInputCoin).hasKeyB kAmount &&
  s.hasKeyB kPuzzleReveal

/-- All required fields of an entry, relative to the form its
discriminator keys select. -/
def requiredFieldsOK (s : Json) : Bool :=
  (!s.hasKeyB kSpendRequests || descriptiveFieldsOK s) &&
  (s.hasKeyB kSpendRequests || !s.hasKeyB kSolution || rawFieldsOK s)

/-! ## Concrete example values (used by witnesses, counterexamples and
the `code_bug` evaluations; `exCoin0`/`exCoin1` follow the spec's §8
end-to-end example: amounts 100 and 50, one requested output of 30) -/

def exK0 : Bytes := List.replicate 48 1

def exK1 : Bytes := List.replicate 48 2

def exCoin0 : Coin :=
  { parent_id := List.replicate 32 3,
    puzzle_hash := treeHash (puzzle_for_pk exK0), amount := 100 }

def exCoin1 : Coin :=
  { parent_id := List.replicate 32 4,
    puzzle_hash := treeHash (puzzle_for_pk exK1), amount := 50 }

def exEntry0 : InputEntry := { coin := exCoin0, pubkey := exK0 }

def exEntry1 : InputEntry := { coin := exCoin1, pubkey := exK1 }

def exReq : SpendRequest :=
  { puzzle_hash := List.replicate 32 5, amount := 30 }

def exCoinBad : Coin :=
  { parent_id := List.replicate 32 3,
    puzzle_hash := List.replicate 32 9, amount := 100 }

def exEntryBad : InputEntry := { coin := exCoinBad, pubkey := exK0 }

def exWireCoin : Coin :=
  { parent_id := List.replicate 32 7,
    puzzle_hash := List.replicate 32 9, amount := 1000 }

def exBundle : SpendBundle :=
  { coin_solutions := [
      { coin := exWireCoin,
        solution := .pair (.fromPk exK0)
          (.ofConditions [.createCoin (List.replicate 32 5) 30]) }],
    aggregated_signature := g2Infinity }

def exMissingEntry : Json := .obj [(kSpendRequests, .arr [])]

def exEmptyDesc : Json := .obj [(kSpends, .arr [])]

def exMissingDesc : Json := .obj [(kSpends, .arr [exMissingEntry])]

/-! # Theorems -/

/-! ## Monadic plumbing -/

theorem ok_bind {α β : Type} (a : α) (f : α → Except Err β) :
    (Except.ok a : Except Err α) >>= f = f a := rfl

theorem error_bind {α β : Type} (e : Err) (f : α → Except Err β) :
    (Except.error e : Except Err α) >>= f = .error e := rfl

theorem osome_bind {α β : Type} (a : α) (f : α → Option β) :
    (some a : Option α) >>= f = f a := rfl

theorem bind_ok_inv {α β : Type} {x : Except Err α} {f : α → Except Err β}
    {b : β} (h : x >>= f = .ok b) : ∃ a, x = .ok a ∧ f a = .ok b := by
  cases x with
  | error e => rw [error_bind] at h; exact absurd h (by simp)
  | ok a => exact ⟨a, rfl, h⟩

theorem bind_error_inv {α β : Type} {x : Except Err α} {f : α → Except Err β}
    {e : Err} (h : x >>= f = .error e) :
    x = .error e ∨ ∃ a, x = .ok a ∧ f a = .error e := by
  cases x with
  | error e2 =>
    rw [error_bind] at h
    simp only [Except.error.injEq] at h
    subst h
    exact Or.inl rfl
  | ok a => exact Or.inr ⟨a, rfl, h⟩

/-! ## Byte-encoding primitives -/

theorem natToBE_length (w n : Nat) : (natToBE w n).length = w := by
  induction w generalizing n with
  | zero => rfl
  | succ w ih => simp [natToBE, ih]

theorem natToBE_lt (w n : Nat) : ∀ b ∈ natToBE w n, b < 256 := by
  induction w generalizing n with
  | zero => intro b hb; simp [natToBE] at hb
  | succ w ih =>
    intro b hb
    simp only [natToBE, List.mem_append, List.mem_singleton] at hb
    rcases hb with hb | hb
    · exact ih _ b hb
    · subst hb; exact Nat.mod_lt _ (by norm_num)

theorem beToNat_append_single (l : List Nat) (b : Nat) :
    beToNat (l ++ [b]) = beToNat l * 256 + b := by
  simp [beToNat, List.foldl_append]

theorem beToNat_natToBE (w n : Nat) (h : n < 256 ^ w) :
    beToNat (natToBE w n) = n := by
  induction w generalizing n with
  | zero =>
    interval_cases n
    rfl
  | succ w ih =>
    have hdiv : n / 256 < 256 ^ w := by
      rw [Nat.div_lt_iff_lt_mul (by norm_num : 0 < 256)]
      calc n < 256 ^ (w + 1) := h
        _ = 256 ^ w * 256 := by ring
    rw [natToBE, beToNat_append_single, ih _ hdiv]
    omega

theorem readBE_append (w n : Nat) (rest : List Nat) (h : n < 256 ^ w) :
    readBE w (natToBE w n ++ rest) = some (n, rest) := by
  have hlen := natToBE_length w n
  have hval := beToNat_natToBE w n h
  generalize hg : natToBE w n = l at hlen hval ⊢
  subst hlen
  rw [readBE, if_pos, List.take_left, List.drop_left, hval]
  rw [List.length_append]; omega

theorem readN_append (l rest : List Nat) :
    readN l.length (l ++ rest) = some (l, rest) := by
  rw [readN, if_pos]
  · rw [List.take_left, List.drop_left]
  · rw [List.length_append]; omega

/-! ## Codec round-trip, condition and program layer -/

theorem condDecode_roundtrip (c : Condition) (rest : List Nat)
    (h : condWfB c = true) :
    condDecode (condBytes c ++ rest) = some (c, rest) := by
  cases c with
  | createCoin ph a =>
    simp only [condWfB, Bool.and_eq_true, decide_eq_true_eq] at h
    obtain ⟨⟨⟨hlen, hb⟩, h0⟩, h64⟩ := h
    have htn : a.toNat < 2 ^ 64 := by omega
    simp only [condBytes, List.cons_append, List.append_assoc, condDecode,
      if_pos rfl]
    rw [readBE_append 4 ph.length _ hlen, osome_bind, readN_append, osome_bind,
      readBE_append 8 a.toNat _ htn]
    simp [Int.toNat_of_nonneg h0]
  | assertCoinConsumed cid =>
    simp only [condWfB, Bool.and_eq_true, decide_eq_true_eq] at h
    obtain ⟨hlen, hb⟩ := h
    simp only [condBytes, List.cons_append, List.append_assoc, condDecode,
      if_neg (by decide : ¬(1 = 0)), if_pos rfl]
    rw [readBE_append 4 cid.length _ hlen, osome_bind, readN_append]
    simp
  | assertTimeExceeds t =>
    simp only [condWfB, Bool.and_eq_true, decide_eq_true_eq] at h
    obtain ⟨h0, h64⟩ := h
    have htn : t.toNat < 2 ^ 64 := by omega
    simp only [condBytes, List.cons_append, List.append_assoc, condDecode,
      if_neg (by decide : ¬(2 = 0)), if_neg (by decide : ¬(2 = 1)), if_pos rfl]
    rw [readBE_append 8 t.toNat _ htn]
    simp [Int.toNat_of_nonneg h0]
  | assertMyCoinId cid =>
    simp only [condWfB, Bool.and_eq_true, decide_eq_true_eq] at h
    obtain ⟨hlen, hb⟩ := h
    simp only [condBytes, List.cons_append, List.append_assoc, condDecode,
      if_neg (by decide : ¬(3 = 0)), if_neg (by decide : ¬(3 = 1)),
      if_neg (by decide : ¬(3 = 2)), if_pos rfl]
    rw [readBE_append 4 cid.length _ hlen, osome_bind, readN_append]
    simp
  | assertFee a =>
    simp only [condWfB, Bool.and_eq_true, decide_eq_true_eq] at h
    obtain ⟨h0, h64⟩ := h
    have htn : a.toNat < 2 ^ 64 := by omega
    simp only [condBytes, List.cons_append, List.append_assoc, condDecode,
      if_neg (by decide : ¬(4 = 0)), if_neg (by decide : ¬(4 = 1)),
      if_neg (by decide : ¬(4 = 2)), if_neg (by decide : ¬(4 = 3)), if_pos rfl]
    rw [readBE_append 8 a.toNat _ htn]
    simp [Int.toNat_of_nonneg h0]

theorem condsDecode_roundtrip (cs : List Condition) (rest : List Nat)
    (h : ∀ c ∈ cs, condWfB c = true) :
    condsDecode cs.length (cs.flatMap condBytes ++ rest) = some (cs, rest) := by
  induction cs with
  | nil => simp [condsDecode]
  | cons c cs ih =>
    simp only [List.flatMap_cons, List.length_cons, condsDecode,
      List.append_assoc]
    rw [condDecode_roundtrip c _ (h c (by simp)), osome_bind,
      ih (fun x hx => h x (by simp [hx])), osome_bind]

theorem natsDecode_roundtrip (cs : List Nat) (rest : List Nat)
    (h : ∀ c ∈ cs, c < 2 ^ 32) :
    natsDecode cs.length (cs.flatMap (natToBE 4) ++ rest) = some (cs, rest) := by
  induction cs with
  | nil => simp [natsDecode]
  | cons c cs ih =>
    simp only [List.flatMap_cons, List.length_cons, natsDecode,
      List.append_assoc]
    rw [readBE_append 4 c _ (h c (by simp)), osome_bind,
      ih (fun x hx => h x (by simp [hx])), osome_bind]

theorem readN_append' {n : Nat} (l rest : List Nat) (h : l.length = n) :
    readN n (l ++ rest) = some (l, rest) := by
  subst h; exact readN_append l rest

theorem progDepth_pos (p : Program) : 1 ≤ progDepth p := by
  cases p <;> simp [progDepth]

theorem progDepth_le_length (p : Program) :
    progDepth p ≤ (progBytes p).length := by
  induction p with
  | fromPk pk => simp [progDepth, progBytes]
  | assembled cs => simp [progDepth, progBytes]
  | pair p q ihp ihq =>
    simp only [progDepth, progBytes, List.length_cons, List.length_append]
    omega
  | ofConditions cs => simp [progDepth, progBytes]

theorem progDecodeF_roundtrip (p : Program) (fuel : Nat) (rest : List Nat)
    (hwf : progWfB p = true) (hfuel : progDepth p ≤ fuel) :
    progDecodeF fuel (progBytes p ++ rest) = some (p, rest) := by
  induction p generalizing fuel rest with
  | fromPk pk =>
    obtain ⟨f, rfl⟩ : ∃ f, fuel = f + 1 :=
      ⟨fuel - 1, by simp only [progDepth] at hfuel; omega⟩
    simp only [progWfB, Bool.and_eq_true, decide_eq_true_eq] at hwf
    obtain ⟨hlen, hb⟩ := hwf
    simp only [progBytes, List.cons_append, List.append_eq,
      List.append_assoc, progDecodeF, if_pos rfl]
    rw [readBE_append 4 pk.length _ hlen, osome_bind, readN_append]
    simp
  | assembled cs =>
    obtain ⟨f, rfl⟩ : ∃ f, fuel = f + 1 :=
      ⟨fuel - 1, by simp only [progDepth] at hfuel; omega⟩
    simp only [progWfB, Bool.and_eq_true, decide_eq_true_eq,
      List.all_eq_true] at hwf
    obtain ⟨hlen, hcs⟩ := hwf
    simp only [progBytes, List.cons_append, List.append_eq,
      List.append_assoc, progDecodeF, if_neg (by decide : ¬(1 = 0)), if_pos rfl]
    rw [readBE_append 4 cs.length _ hlen, osome_bind,
      natsDecode_roundtrip cs rest (fun c hc => hcs c hc)]
    simp
  | pair p q ihp ihq =>
    obtain ⟨f, rfl⟩ : ∃ f, fuel = f + 1 :=
      ⟨fuel - 1, by
        have := progDepth_pos (Program.pair p q); omega⟩
    have hf : progDepth p ≤ f ∧ progDepth q ≤ f := by
      simp only [progDepth] at hfuel; omega
    simp only [progWfB, Bool.and_eq_true] at hwf
    simp only [progBytes, List.cons_append, List.append_eq,
      List.append_assoc, progDecodeF,
      if_neg (by decide : ¬(2 = 0)), if_neg (by decide : ¬(2 = 1)), if_pos rfl]
    rw [ihp f _ hwf.1 hf.1, osome_bind, ihq f rest hwf.2 hf.2, osome_bind]
    simp
  | ofConditions cs =>
    obtain ⟨f, rfl⟩ : ∃ f, fuel = f + 1 :=
      ⟨fuel - 1, by simp only [progDepth] at hfuel; omega⟩
    simp only [progWfB, Bool.and_eq_true, decide_eq_true_eq,
      List.all_eq_true] at hwf
    obtain ⟨hlen, hcs⟩ := hwf
    simp only [progBytes, List.cons_append, List.append_eq,
      List.append_assoc, progDecodeF,
      if_neg (by decide : ¬(3 = 0)), if_neg (by decide : ¬(3 = 1)),
      if_neg (by decide : ¬(3 = 2)), if_pos rfl]
    rw [readBE_append 4 cs.length _ hlen, osome_bind,
      condsDecode_roundtrip cs rest (fun c hc => hcs c hc)]
    simp

theorem progDecodeF_exact (p : Program) (hwf : progWfB p = true) :
    progDecodeF (progBytes p).length (progBytes p) = some (p, []) := by
  have h := progDecodeF_roundtrip p (progBytes p).length [] hwf
    (progDepth_le_length p)
  rwa [List.append_nil] at h

theorem coinSolutionsDecode_roundtrip (css : List CoinSolution)
    (rest : List Nat) (h : ∀ cs ∈ css, coinSolutionWfB cs = true) :
    coinSolutionsDecode css.length (css.flatMap coinSolutionBytes ++ rest) =
      some (css, rest) := by
  induction css with
  | nil => simp [coinSolutionsDecode]
  | cons cs css ih =>
    obtain ⟨⟨pid, ph, amt⟩, sol⟩ := cs
    have hwf := h _ (List.mem_cons_self _ _)
    simp only [coinSolutionWfB, coinWfB, Bool.and_eq_true,
      decide_eq_true_eq] at hwf
    obtain ⟨⟨⟨⟨⟨⟨⟨hpid, hpidb⟩, hph⟩, hphb⟩, h0⟩, h64⟩, hsol⟩, hplen⟩ := hwf
    have htn : amt.toNat < 2 ^ 64 := by omega
    simp only [List.flatMap_cons, List.length_cons, coinSolutionsDecode,
      coinSolutionBytes, coinBytes, List.append_assoc]
    rw [readN_append' pid _ hpid, osome_bind, readN_append' ph _ hph,
      osome_bind, readBE_append 8 amt.toNat _ htn, osome_bind,
      readBE_append 4 (progBytes sol).length _ hplen, osome_bind,
      readN_append, osome_bind, progDecodeF_exact sol hsol, osome_bind]
    simp only [List.isEmpty_nil, if_pos rfl]
    rw [ih (fun x hx => h x (List.mem_cons_of_mem _ hx)), osome_bind]
    simp [Int.toNat_of_nonneg h0]

theorem spendBundleFromBytes_roundtrip (b : SpendBundle)
    (h : spendBundleWfB b = true) :
    spendBundleFromBytes (spendBundleBytes b) = .ok b := by
  obtain ⟨css, sig⟩ := b
  simp only [spendBundleWfB, Bool.and_eq_true, decide_eq_true_eq,
    List.all_eq_true] at h
  obtain ⟨⟨⟨hcount, hall⟩, hsig⟩, hsigb⟩ := h
  simp only [spendBundleFromBytes, spendBundleBytes]
  rw [readBE_append 4 css.length _ hcount, osome_bind,
    coinSolutionsDecode_roundtrip css sig (fun cs hcs => hall cs hcs),
    osome_bind, show sig = sig ++ [] from (List.append_nil sig).symm,
    readN_append' sig [] (by simpa using hsig), osome_bind]
  simp

/-! ## Codec round-trip, hex layer -/

theorem hexDigit_roundtrip (n : Nat) (h : n < 16) :
    hexDigitVal (hexDigitChar n) = some n := by
  interval_cases n <;> rfl

theorem hexToBytesL_roundtrip (l : Bytes) (h : ∀ b ∈ l, b < 256) :
    hexToBytesL (l.flatMap byteToHex) = .ok l := by
  induction l with
  | nil => rfl
  | cons b l ih =>
    have hb := h b (by simp)
    have h1 : b / 16 < 16 := by omega
    have h2 : b % 16 < 16 := by omega
    have hbv : 16 * (b / 16) + b % 16 = b := by omega
    simp only [List.flatMap_cons, byteToHex, List.cons_append, List.nil_append,
      hexToBytesL, hexDigit_roundtrip _ h1, hexDigit_roundtrip _ h2]
    have hrest : (([] : List Char).append ((List.map byteToHex l).flatten)) =
        l.flatMap byteToHex := rfl
    rw [hrest, ih (fun x hx => h x (by simp [hx]))]
    simp [hbv]

/-! ## All emitted wire bytes are real bytes -/

theorem condBytes_lt (c : Condition) (h : condWfB c = true) :
    ∀ b ∈ condBytes c, b < 256 := by
  cases c <;>
    (simp only [condWfB, Bool.and_eq_true, decide_eq_true_eq,
      List.all_eq_true] at h) <;>
    (intro b hb
     simp only [condBytes, List.mem_cons, List.mem_append] at hb) <;>
    (rcases hb with hb | hb)
  case createCoin.inl => omega
  case createCoin.inr ph a =>
    rcases hb with hb | hb | hb
    · exact natToBE_lt 4 _ b hb
    · have := h.1.1.2 b hb; simpa using this
    · exact natToBE_lt 8 _ b hb
  case assertCoinConsumed.inl => omega
  case assertCoinConsumed.inr cid =>
    rcases hb with hb | hb
    · exact natToBE_lt 4 _ b hb
    · have := h.2 b hb; simpa using this
  case assertTimeExceeds.inl => omega
  case assertTimeExceeds.inr => exact natToBE_lt 8 _ b hb
  case assertMyCoinId.inl => omega
  case assertMyCoinId.inr cid =>
    rcases hb with hb | hb
    · exact natToBE_lt 4 _ b hb
    · have := h.2 b hb; simpa using this
  case assertFee.inl => omega
  case assertFee.inr => exact natToBE_lt 8 _ b hb

theorem progBytes_lt (p : Program) (h : progWfB p = true) :
    ∀ b ∈ progBytes p, b < 256 := by
  induction p with
  | fromPk pk =>
    simp only [progWfB, Bool.and_eq_true, decide_eq_true_eq,
      List.all_eq_true] at h
    intro b hb
    simp only [progBytes, List.mem_cons, List.mem_append] at hb
    rcases hb with hb | hb | hb
    · omega
    · exact natToBE_lt 4 _ b hb
    · have := h.2 b hb; simpa using this
  | assembled cs =>
    simp only [progWfB, Bool.and_eq_true, decide_eq_true_eq,
      List.all_eq_true] at h
    intro b hb
    simp only [progBytes, List.mem_cons, List.mem_append,
      List.mem_flatMap] at hb
    rcases hb with hb | hb | ⟨c, hc, hb⟩
    · omega
    · exact natToBE_lt 4 _ b hb
    · exact natToBE_lt 4 _ b hb
  | pair p q ihp ihq =>
    simp only [progWfB, Bool.and_eq_true] at h
    intro b hb
    simp only [progBytes, List.mem_cons, List.mem_append] at hb
    rcases hb with hb | hb | hb
    · omega
    · exact ihp h.1 b hb
    · exact ihq h.2 b hb
  | ofConditions cs =>
    simp only [progWfB, Bool.and_eq_true, decide_eq_true_eq,
      List.all_eq_true] at h
    intro b hb
    simp only [progBytes, List.mem_cons, List.mem_append,
      List.mem_flatMap] at hb
    rcases hb with hb | hb | ⟨c, hc, hb⟩
    · omega
    · exact natToBE_lt 4 _ b hb
    · exact condBytes_lt c (h.2 c hc) b hb

theorem spendBundleBytes_lt (b : SpendBundle)
    (h : spendBundleWfB b = true) : ∀ x ∈ spendBundleBytes b, x < 256 := by
  obtain ⟨css, sig⟩ := b
  simp only [spendBundleWfB, Bool.and_eq_true, decide_eq_true_eq,
    List.all_eq_true] at h
  obtain ⟨⟨⟨hcount, hall⟩, hsig⟩, hsigb⟩ := h
  intro x hx
  simp only [spendBundleBytes, List.mem_append, List.mem_flatMap] at hx
  rcases hx with hx | ⟨cs, hcs, hx⟩ | hx
  · exact natToBE_lt 4 _ x hx
  · have hwf := hall cs hcs
    simp only [coinSolutionWfB, coinWfB, Bool.and_eq_true,
      decide_eq_true_eq, List.all_eq_true] at hwf
    obtain ⟨⟨⟨⟨⟨⟨⟨hpid, hpidb⟩, hph⟩, hphb⟩, h0⟩, h64⟩, hsol⟩, hplen⟩ := hwf
    simp only [coinSolutionBytes, coinBytes, List.mem_append] at hx
    rcases hx with hx | hx
    · rcases hx with hx | hx | hx
      · have := hpidb x hx; simpa using this
      · have := hphb x hx; simpa using this
      · exact natToBE_lt 8 _ x hx
    · rcases hx with hx | hx
      · exact natToBE_lt 4 _ x hx
      · exact progBytes_lt _ hsol x hx
  · have := hsigb x hx; simpa using this

/-! ## Claim C7: codec round-trip -/

/-- C7: for every valid SpendBundle `b`, decoding its encoding returns a
value equal to `b` (`decode_spendbundle (encode_spendbundle b) = ok b`);
the encoding is a pure function of `b`, hence deterministic. -/
theorem c7_encode_decode_roundtrip (b : SpendBundle)
    (h : spendBundleWfB b = true) :
    decode_spendbundle (encode_spendbundle b) = .ok b := by
  unfold decode_spendbundle encode_spendbundle bytesToHex
  have hlt := spendBundleBytes_lt b h
  have hstr : (String.mk ((spendBundleBytes b).flatMap byteToHex)).toList =
      (spendBundleBytes b).flatMap byteToHex := rfl
  rw [hstr, hexToBytesL_roundtrip _ hlt, ok_bind,
    spendBundleFromBytes_roundtrip b h]

/-- C7 witness: a concrete valid bundle round-trips. -/
theorem c7_encode_decode_roundtrip_witness :
    spendBundleWfB exBundle = true ∧
      decode_spendbundle (encode_spendbundle exBundle) = .ok exBundle :=
  ⟨by decide, c7_encode_decode_roundtrip exBundle (by decide)⟩

/-! ## Assembler evaluation -/

theorem make_solution_primaries (ps : List Primary) :
    make_solution (some ps) 0 none none 0 =
      .ok (.ofConditions (ps.map fun p =>
        Condition.createCoin p.puzzlehash p.amount)) := by
  simp [make_solution, solution_for_conditions]

/-- Full evaluation of `create_unsigned_transaction` on a non-empty
inputs list presented as `rest ++ [origin]`. -/
theorem cut_eval (rest' : List InputEntry) (origin : InputEntry)
    (srs : Option (List SpendRequest)) (v : Bool) :
    create_unsigned_transaction (some (rest' ++ [origin])) srs v =
      if v = true ∧ sentValue srs ≥ inputValue (rest' ++ [origin]) then
        (.error .insufficientFunds, some rest', srs)
      else if treeHash (puzzle_for_pk origin.pubkey) ≠ origin.coin.puzzle_hash then
        (.error .puzzleMismatch, some rest', srs)
      else
        match processRest rest' with
        | .error e => (.error e, some rest', srs)
        | .ok others =>
          (.ok ({ coin := origin.coin,
                  solution := Program.pair (puzzle_for_pk origin.pubkey)
                    (Program.ofConditions ((outputsOf srs).map fun p =>
                      Condition.createCoin p.puzzlehash p.amount)) } :: others),
           some rest', srs) := by
  have h1 : ¬((rest' ++ [origin]).length < 1) := by simp
  simp only [create_unsigned_transaction, List.getLast?_concat,
    List.dropLast_concat, make_solution_primaries, if_neg h1]

/-! ## Claim C1: conservation check (code bug evaluation) -/

/-- C1 (code-bug evaluation): the spec's own §8 end-to-end example —
two inputs with matching puzzle hashes, amounts 100 and 50, one
requested output of 30, `validate = true` — does not succeed as the
claim requires: the non-origin loop evaluates `coin.pubkey`, a field
`Coin` does not have, and the call raises `AttributeError`. -/
theorem c1_conservation_code_bug_eval :
    treeHash (puzzle_for_pk exEntry0.pubkey) = exEntry0.coin.puzzle_hash ∧
    treeHash (puzzle_for_pk exEntry1.pubkey) = exEntry1.coin.puzzle_hash ∧
    sentValue (some [exReq]) < inputValue [exEntry0, exEntry1] ∧
    (create_unsigned_transaction (some [exEntry0, exEntry1])
        (some [exReq]) true).1 = .error .attributeError := by
  refine ⟨rfl, rfl, by decide, by decide⟩

/-! ## Claim C3: non-origin inputs (code bug evaluation) -/

/-- C3 (code-bug evaluation): with two inputs, the non-origin input
never yields a CoinSolution derived from its supplied `pubkey` entry:
the loop body reads `coin.pubkey` (which a `Coin` does not have), so the
assembler fails with `AttributeError`; `processRest` is that loop. -/
theorem c3_nonorigin_code_bug_eval :
    processRest [exEntry0] = .error .attributeError ∧
    (create_unsigned_transaction (some [exEntry0, exEntry1])
        (some [exReq]) true).1 = .error .attributeError ∧
    Err.attributeError ≠ Err.invalidArgument := by
  refine ⟨rfl, by decide, by decide⟩

/-! ## Claim C2: puzzle-hash invariant -/

/-- C2 counterexample: a CoinSolution construction for a non-origin
input whose derived puzzle's tree hash differs from the coin's
`puzzle_hash` does not fail with `PuzzleMismatch`: the call fails with
`AttributeError` (no tree-hash check exists on the non-origin path). -/
theorem c2_counterexample :
    treeHash (puzzle_for_pk exEntryBad.pubkey) ≠ exEntryBad.coin.puzzle_hash ∧
    (create_unsigned_transaction (some [exEntryBad, exEntry1])
        (some [exReq]) true).1 = .error .attributeError ∧
    Err.attributeError ≠ Err.puzzleMismatch := by
  refine ⟨by decide, by decide, by decide⟩

/-- C2 (amended): the tree-hash invariant is enforced with
`PuzzleMismatch` for the origin input and for raw-form entries; for
non-origin inputs no tree-hash check exists, but no pair is ever
accepted either — their processing unconditionally fails with
`AttributeError`. -/
theorem c2_amended_puzzle_mismatch :
    (∀ (rest' : List InputEntry) (origin : InputEntry)
        (srs : Option (List SpendRequest)) (v : Bool),
        ¬(v = true ∧ sentValue srs ≥ inputValue (rest' ++ [origin])) →
        treeHash (puzzle_for_pk origin.pubkey) ≠ origin.coin.puzzle_hash →
        (create_unsigned_transaction (some (rest' ++ [origin])) srs v).1 =
          .error .puzzleMismatch) ∧
    (∀ (s : Json) (c : Coin) (p : Program),
        rawCoinAndPuzzle s = .ok (c, p) →
        treeHash p ≠ c.puzzle_hash →
        rawSpend s = .error .puzzleMismatch) ∧
    (∀ (rest' : List InputEntry) (origin : InputEntry)
        (srs : Option (List SpendRequest)) (v : Bool),
        rest' ≠ [] →
        ¬(v = true ∧ sentValue srs ≥ inputValue (rest' ++ [origin])) →
        treeHash (puzzle_for_pk origin.pubkey) = origin.coin.puzzle_hash →
        (create_unsigned_transaction (some (rest' ++ [origin])) srs v).1 =
          .error .attributeError) := by
  refine ⟨?_, ?_, ?_⟩
  · intro rest' origin srs v hcons hmis
    rw [cut_eval, if_neg hcons, if_pos hmis]
  · intro s c p hraw hmis
    unfold rawSpend
    rw [hraw, ok_bind, if_pos hmis]
  · intro rest' origin srs v hne hcons hmatch
    obtain ⟨r0, rs, rfl⟩ : ∃ r0 rs, rest' = r0 :: rs := by
      cases rest' with
      | nil => exact absurd rfl hne
      | cons r0 rs => exact ⟨r0, rs, rfl⟩
    rw [cut_eval, if_neg hcons, if_neg (fun hne2 => hne2 hmatch)]
    rfl

/-- C2 amended witness: a single-input call whose origin puzzle hash
does not match fails with `PuzzleMismatch`. -/
theorem c2_amended_puzzle_mismatch_witness :
    (create_unsigned_transaction (some ([] ++ [exEntryBad]))
        (some [exReq]) true).1 = .error .puzzleMismatch :=
  c2_amended_puzzle_mismatch.1 [] exEntryBad (some [exReq]) true
    (by decide) (by decide)

/-! ## Claim C4: result shape of successful assembly -/

/-- C4: every successful `create_unsigned_transaction` call returns one
CoinSolution per input; the first result entry is the last input (the
origin), its solution carries exactly one CreateCoin condition per
requested output in order, and the remaining entries are the other
inputs in their original order. -/
theorem c4_result_shape (ins : List InputEntry)
    (srs : Option (List SpendRequest)) (v : Bool) (l : List CoinSolution)
    (h : (create_unsigned_transaction (some ins) srs v).1 = .ok l) :
    l.length = ins.length ∧
    (∃ origin, ins.getLast? = some origin ∧
      l.head? = some
        { coin := origin.coin,
          solution := Program.pair (puzzle_for_pk origin.pubkey)
            (Program.ofConditions ((outputsOf srs).map fun p =>
              Condition.createCoin p.puzzlehash p.amount)) }) ∧
    l.tail.map (fun cs => cs.coin) = ins.dropLast.map (fun i => i.coin) := by
  have hne : ins ≠ [] := by
    rintro rfl
    simp [create_unsigned_transaction] at h
  obtain ⟨rest', origin, rfl⟩ : ∃ r o, ins = r ++ [o] :=
    ⟨ins.dropLast, ins.getLast hne, (List.dropLast_concat_getLast hne).symm⟩
  rw [cut_eval] at h
  by_cases hcons : v = true ∧ sentValue srs ≥ inputValue (rest' ++ [origin])
  · rw [if_pos hcons] at h; simp at h
  rw [if_neg hcons] at h
  by_cases hmis : treeHash (puzzle_for_pk origin.pubkey) ≠ origin.coin.puzzle_hash
  · rw [if_pos hmis] at h; simp at h
  rw [if_neg hmis] at h
  cases hrest : rest' with
  | cons r0 rs => rw [hrest] at h; simp [processRest] at h
  | nil =>
    rw [hrest] at h
    simp only [processRest] at h
    simp only [Except.ok.injEq] at h
    subst h
    refine ⟨by simp, ⟨origin, by simp, rfl⟩, by simp⟩

/-- C4 witness: a successful single-input call evaluated concretely. -/
theorem c4_result_shape_witness :
    [(⟨exEntry0.coin, Program.pair (puzzle_for_pk exEntry0.pubkey)
        (Program.ofConditions [Condition.createCoin exReq.puzzle_hash
          exReq.amount])⟩ : CoinSolution)].length = [exEntry0].length ∧
    (∃ origin, [exEntry0].getLast? = some origin ∧
      [(⟨exEntry0.coin, Program.pair (puzzle_for_pk exEntry0.pubkey)
          (Program.ofConditions [Condition.createCoin exReq.puzzle_hash
            exReq.amount])⟩ : CoinSolution)].head? =
        some
          { coin := origin.coin,
            solution := Program.pair (puzzle_for_pk origin.pubkey)
              (Program.ofConditions ((outputsOf (some [exReq])).map fun p =>
                Condition.createCoin p.puzzlehash p.amount)) }) ∧
    ([(⟨exEntry0.coin, Program.pair (puzzle_for_pk exEntry0.pubkey)
        (Program.ofConditions [Condition.createCoin exReq.puzzle_hash
          exReq.amount])⟩ : CoinSolution)]).tail.map (fun cs => cs.coin) =
      [exEntry0].dropLast.map (fun i => i.coin) :=
  c4_result_shape [exEntry0] (some [exReq]) true _ (by decide)

/-! ## Claim C5: argument mutation -/

/-- C5 counterexample: the call removes the popped origin from the
caller's `inputs` list — after a single-input call the list is empty,
not the original one-element list. -/
theorem c5_counterexample :
    (create_unsigned_transaction (some [exEntryBad]) (some []) true).2.1 ≠
      some [exEntryBad] := by
  decide

/-- C5 (amended): `spend_requests` is left unchanged and the result is
a pure function of the arguments, but `inputs` is mutated whenever it
passes the emptiness test: the call removes its last element (the
popped origin), even when it subsequently fails. -/
theorem c5_amended_mutation (ins : Option (List InputEntry))
    (srs : Option (List SpendRequest)) (v : Bool) :
    (create_unsigned_transaction ins srs v).2.2 = srs ∧
    (create_unsigned_transaction ins srs v).2.1 =
      (match ins with
       | none => none
       | some l => if l.length < 1 then some l else some l.dropLast) := by
  match ins with
  | none => exact ⟨rfl, rfl⟩
  | some [] => exact ⟨rfl, rfl⟩
  | some (i0 :: irest) =>
    have hne : (i0 :: irest) ≠ [] := by simp
    obtain ⟨rest', origin, heq⟩ :
        ∃ r o, i0 :: irest = r ++ [o] :=
      ⟨(i0 :: irest).dropLast, (i0 :: irest).getLast hne,
        (List.dropLast_concat_getLast hne).symm⟩
    rw [heq]
    constructor
    · rw [cut_eval]
      split
      · rfl
      · split
        · rfl
        · split <;> rfl
    · have hrhs :
          (match (some (rest' ++ [origin]) : Option (List InputEntry)) with
           | none => none
           | some l => if l.length < 1 then some l else some l.dropLast) =
            some rest' := by
        simp
      rw [cut_eval, hrhs]
      split
      · rfl
      · split
        · rfl
        · split <;> rfl

/-! ## Claim C6: condition encoder -/

/-- C6: with non-negative fee, `make_solution` produces exactly one
CreateCoin condition per primary in input order, one AssertCoinConsumed
per consumed id in order, AssertTimeExceeds exactly when `min_time > 0`,
AssertMyCoinId exactly when `me` is provided, and AssertFee exactly when
`fee` is nonzero, in that group order. -/
theorem c6_make_solution_conditions (primaries : Option (List Primary))
    (min_time : Int) (me : Option MeInfo) (consumed : Option (List Bytes))
    (fee : Int) (h : 0 ≤ fee) :
    make_solution primaries min_time me consumed fee =
      .ok (.ofConditions
        (((primaries.getD []).map fun p =>
            Condition.createCoin p.puzzlehash p.amount)
          ++ ((consumed.getD []).map fun c => Condition.assertCoinConsumed c)
          ++ (if min_time > 0 then [Condition.assertTimeExceeds min_time] else [])
          ++ (match me with
              | some m => [Condition.assertMyCoinId m.id]
              | none => [])
          ++ (if fee ≠ 0 then [Condition.assertFee fee] else []))) := by
  rw [make_solution.eq_def, if_neg (by omega)]
  rfl

/-- C6 witness: all condition kinds appear, in the stated order. -/
theorem c6_make_solution_conditions_witness :
    make_solution
        (some [{ puzzlehash := [1], amount := 2 },
               { puzzlehash := [3], amount := 4 }])
        5 (some { id := [7] }) (some [[8]]) 9 =
      .ok (.ofConditions
        [.createCoin [1] 2, .createCoin [3] 4, .assertCoinConsumed [8],
         .assertTimeExceeds 5, .assertMyCoinId [7], .assertFee 9]) := by
  rw [c6_make_solution_conditions _ _ _ _ _ (by decide)]
  rfl

/-! ## Parser lemmas: success implies field presence, and the errors of
the reading phase are exactly the spec's `MalformedDescription` class -/

theorem pyIn_obj (k : String) (kvs : List (String × Json)) :
    pyIn k (.obj kvs) = .ok ((Json.obj kvs).hasKeyB k) := rfl

theorem get_ok_hasKeyB {j : Json} {k : String} {v : Json}
    (h : j.get k = .ok v) : j.hasKeyB k = true := by
  cases j with
  | num n => simp [Json.get] at h
  | str s => simp [Json.get] at h
  | arr xs => simp [Json.get] at h
  | obj kvs =>
    simp only [Json.get] at h
    cases hf : kvs.find? (fun kv => kv.1 == k) with
    | none => rw [hf] at h; simp at h
    | some kv =>
      have hp := List.find?_some hf
      have hm := List.mem_of_find?_eq_some hf
      simp only [Json.hasKeyB, List.any_eq_true]
      exact ⟨kv, hm, hp⟩

theorem get_ok_getD {j : Json} {k : String} {v : Json}
    (h : j.get k = .ok v) : j.getD k = v := by
  unfold Json.getD
  rw [h]

theorem asArr_ok {j : Json} {l : List Json} (h : j.asArr = .ok l) :
    j = .arr l := by
  cases j <;> simp only [Json.asArr, Except.ok.injEq] at h
  · exact absurd h (by simp)
  · exact absurd h (by simp)
  · rw [h]
  · exact absurd h (by simp)

theorem get_error_class {j : Json} {k : String} {e : Err}
    (h : j.get k = .error e) : isMalformedClass e = true := by
  cases j with
  | num n => simp only [Json.get, Except.error.injEq] at h; subst h; rfl
  | str s => simp only [Json.get, Except.error.injEq] at h; subst h; rfl
  | arr xs => simp only [Json.get, Except.error.injEq] at h; subst h; rfl
  | obj kvs =>
    simp only [Json.get] at h
    cases hf : kvs.find? (fun kv => kv.1 == k) with
    | none =>
      rw [hf] at h
      simp only [Except.error.injEq] at h
      subst h; rfl
    | some kv => rw [hf] at h; simp at h

theorem asStr_error_class {j : Json} {e : Err} (h : j.asStr = .error e) :
    isMalformedClass e = true := by
  cases j with
  | str s => simp [Json.asStr] at h
  | num n => simp only [Json.asStr, Except.error.injEq] at h; subst h; rfl
  | arr xs => simp only [Json.asStr, Except.error.injEq] at h; subst h; rfl
  | obj kvs => simp only [Json.asStr, Except.error.injEq] at h; subst h; rfl

theorem asNum_error_class {j : Json} {e : Err} (h : j.asNum = .error e) :
    isMalformedClass e = true := by
  cases j with
  | num n => simp [Json.asNum] at h
  | str s => simp only [Json.asNum, Except.error.injEq] at h; subst h; rfl
  | arr xs => simp only [Json.asNum, Except.error.injEq] at h; subst h; rfl
  | obj kvs => simp only [Json.asNum, Except.error.injEq] at h; subst h; rfl

theorem asArr_error_class {j : Json} {e : Err} (h : j.asArr = .error e) :
    isMalformedClass e = true := by
  cases j with
  | arr xs => simp [Json.asArr] at h
  | num n => simp only [Json.asArr, Except.error.injEq] at h; subst h; rfl
  | str s => simp only [Json.asArr, Except.error.injEq] at h; subst h; rfl
  | obj kvs => simp only [Json.asArr, Except.error.injEq] at h; subst h; rfl

theorem hexToBytesL_error_class :
    ∀ (l : List Char) (e : Err), hexToBytesL l = .error e →
      isMalformedClass e = true
  | [], e, h => by simp [hexToBytesL] at h
  | [c], e, h => by
    simp only [hexToBytesL, Except.error.injEq] at h
    subst h; rfl
  | c1 :: c2 :: rest, e, h => by
    simp only [hexToBytesL] at h
    cases hv1 : hexDigitVal c1 <;> rw [hv1] at h
    · simp only [Except.error.injEq] at h; subst h; rfl
    cases hv2 : hexDigitVal c2 <;> rw [hv2] at h
    · simp only [Except.error.injEq] at h; subst h; rfl
    cases hr : hexToBytesL rest <;> rw [hr] at h
    · simp only [Except.error.injEq] at h
      subst h
      exact hexToBytesL_error_class rest _ hr
    · simp at h

theorem hexstr_error_class {s : String} {e : Err}
    (h : hexstr_to_bytes s = .error e) : isMalformedClass e = true :=
  hexToBytesL_error_class _ _ h

theorem uint64OfInt_error_class {a : Int} {e : Err}
    (h : uint64OfInt a = .error e) : isMalformedClass e = true := by
  unfold uint64OfInt at h
  split at h
  · simp at h
  · simp only [Except.error.injEq] at h; subst h; rfl

theorem g1FromBytes_error_class {b : Bytes} {e : Err}
    (h : g1FromBytes b = .error e) : isMalformedClass e = true := by
  unfold g1FromBytes at h
  split at h
  · simp at h
  · simp only [Except.error.injEq] at h; subst h; rfl

theorem mapE_error_class {α β : Type} {f : α → Except Err β}
    (hf : ∀ x e, f x = .error e → isMalformedClass e = true) :
    ∀ (l : List α) (e : Err), mapE f l = .error e →
      isMalformedClass e = true
  | [], e, h => by simp [mapE] at h
  | x :: xs, e, h => by
    simp only [mapE] at h
    rcases bind_error_inv h with h1 | ⟨y, hy, h2⟩
    · exact hf x e h1
    · rcases bind_error_inv h2 with h3 | ⟨ys, hys, h4⟩
      · exact mapE_error_class hf xs e h3
      · simp at h4

theorem mapE_ok_mem {α β : Type} {f : α → Except Err β} :
    ∀ {l : List α} {ys : List β}, mapE f l = .ok ys →
      ∀ x ∈ l, ∃ y, f x = .ok y
  | [], ys, h => by intro x hx; simp at hx
  | x :: xs, ys, h => by
    simp only [mapE] at h
    obtain ⟨y, hy, h⟩ := bind_ok_inv h
    obtain ⟨ys2, hys, h2⟩ := bind_ok_inv h
    intro z hz
    rcases List.mem_cons.mp hz with rfl | hz
    · exact ⟨y, hy⟩
    · exact mapE_ok_mem hys z hz

theorem parseInputCoinEntry_error_class {i : Json} {e : Err}
    (h : parseInputCoinEntry i = .error e) : isMalformedClass e = true := by
  unfold parseInputCoinEntry at h
  rcases bind_error_inv h with h | ⟨c, hc, h⟩
  · exact get_error_class h
  rcases bind_error_inv h with h | ⟨a1, ha1, h⟩
  · exact get_error_class h
  rcases bind_error_inv h with h | ⟨s1, hs1, h⟩
  · exact asStr_error_class h
  rcases bind_error_inv h with h | ⟨b1, hb1, h⟩
  · exact hexstr_error_class h
  rcases bind_error_inv h with h | ⟨a2, ha2, h⟩
  · exact get_error_class h
  rcases bind_error_inv h with h | ⟨s2, hs2, h⟩
  · exact asStr_error_class h
  rcases bind_error_inv h with h | ⟨b2, hb2, h⟩
  · exact hexstr_error_class h
  rcases bind_error_inv h with h | ⟨a3, ha3, h⟩
  · exact get_error_class h
  rcases bind_error_inv h with h | ⟨n3, hn3, h⟩
  · exact asNum_error_class h
  rcases bind_error_inv h with h | ⟨a4, ha4, h⟩
  · exact get_error_class h
  rcases bind_error_inv h with h | ⟨s4, hs4, h⟩
  · exact asStr_error_class h
  rcases bind_error_inv h with h | ⟨b4, hb4, h⟩
  · exact hexstr_error_class h
  rcases bind_error_inv h with h | ⟨pk, hpk, h⟩
  · exact g1FromBytes_error_class h
  · simp at h

theorem parseInputCoinEntry_ok_fields {i : Json} {entry : InputEntry}
    (h : parseInputCoinEntry i = .ok entry) : coinEntryFieldsOK i = true := by
  unfold parseInputCoinEntry at h
  obtain ⟨c, hc, h⟩ := bind_ok_inv h
  obtain ⟨a1, ha1, h⟩ := bind_ok_inv h
  obtain ⟨s1, hs1, h⟩ := bind_ok_inv h
  obtain ⟨b1, hb1, h⟩ := bind_ok_inv h
  obtain ⟨a2, ha2, h⟩ := bind_ok_inv h
  obtain ⟨s2, hs2, h⟩ := bind_ok_inv h
  obtain ⟨b2, hb2, h⟩ := bind_ok_inv h
  obtain ⟨a3, ha3, h⟩ := bind_ok_inv h
  obtain ⟨n3, hn3, h⟩ := bind_ok_inv h
  obtain ⟨a4, ha4, h⟩ := bind_ok_inv h
  simp only [coinEntryFieldsOK, get_ok_getD hc, Bool.and_eq_true]
  exact ⟨⟨⟨⟨get_ok_hasKeyB hc, get_ok_hasKeyB ha1⟩, get_ok_hasKeyB ha2⟩,
    get_ok_hasKeyB ha3⟩, get_ok_hasKeyB ha4⟩

theorem parseSpendRequestEntry_error_class {r : Json} {e : Err}
    (h : parseSpendRequestEntry r = .error e) : isMalformedClass e = true := by
  unfold parseSpendRequestEntry at h
  rcases bind_error_inv h with h | ⟨a1, ha1, h⟩
  · exact get_error_class h
  rcases bind_error_inv h with h | ⟨s1, hs1, h⟩
  · exact asStr_error_class h
  rcases bind_error_inv h with h | ⟨b1, hb1, h⟩
  · exact hexstr_error_class h
  rcases bind_error_inv h with h | ⟨a2, ha2, h⟩
  · exact get_error_class h
  rcases bind_error_inv h with h | ⟨n2, hn2, h⟩
  · exact asNum_error_class h
  · simp at h

theorem parseSpendRequestEntry_ok_fields {r : Json} {req : SpendRequest}
    (h : parseSpendRequestEntry r = .ok req) :
    requestEntryFieldsOK r = true := by
  unfold parseSpendRequestEntry at h
  obtain ⟨a1, ha1, h⟩ := bind_ok_inv h
  obtain ⟨s1, hs1, h⟩ := bind_ok_inv h
  obtain ⟨b1, hb1, h⟩ := bind_ok_inv h
  obtain ⟨a2, ha2, h⟩ := bind_ok_inv h
  simp only [requestEntryFieldsOK, Bool.and_eq_true]
  exact ⟨get_ok_hasKeyB ha1, get_ok_hasKeyB ha2⟩

theorem desc_parse_fields {s icj srj : Json} {icl srl : List Json}
    {ics : List InputEntry} {reqs : List SpendRequest}
    (h1 : s.get kInputCoins = .ok icj) (h2 : s.get kSpendRequests = .ok srj)
    (h3 : icj.asArr = .ok icl) (h4 : srj.asArr = .ok srl)
    (h5 : mapE parseInputCoinEntry icl = .ok ics)
    (h6 : mapE parseSpendRequestEntry srl = .ok reqs) :
    descriptiveFieldsOK s = true := by
  have hic := asArr_ok h3
  have hsr := asArr_ok h4
  simp only [descriptiveFieldsOK, get_ok_getD h1, get_ok_getD h2, hic, hsr,
    Bool.and_eq_true, List.all_eq_true]
  refine ⟨⟨get_ok_hasKeyB h1, ?_⟩, ?_⟩
  · intro i hi
    obtain ⟨y, hy⟩ := mapE_ok_mem h5 i hi
    exact parseInputCoinEntry_ok_fields hy
  · intro r hr
    obtain ⟨y, hy⟩ := mapE_ok_mem h6 r hr
    exact parseSpendRequestEntry_ok_fields hy

theorem descriptiveSpend_ok_fields {s : Json} {cs : List CoinSolution}
    (h : descriptiveSpend s = .ok cs) : descriptiveFieldsOK s = true := by
  unfold descriptiveSpend at h
  obtain ⟨icj, h1, h⟩ := bind_ok_inv h
  obtain ⟨srj, h2, h⟩ := bind_ok_inv h
  obtain ⟨icl, h3, h⟩ := bind_ok_inv h
  obtain ⟨ics, h5, h⟩ := bind_ok_inv h
  obtain ⟨srl, h4, h⟩ := bind_ok_inv h
  obtain ⟨reqs, h6, h⟩ := bind_ok_inv h
  exact desc_parse_fields h1 h2 h3 h4 h5 h6

theorem descriptiveSpend_error_class {s : Json} {e : Err}
    (hf : descriptiveFieldsOK s = false) (h : descriptiveSpend s = .error e) :
    isMalformedClass e = true := by
  unfold descriptiveSpend at h
  rcases bind_error_inv h with h | ⟨icj, h1, h⟩
  · exact get_error_class h
  rcases bind_error_inv h with h | ⟨srj, h2, h⟩
  · exact get_error_class h
  rcases bind_error_inv h with h | ⟨icl, h3, h⟩
  · exact asArr_error_class h
  rcases bind_error_inv h with h | ⟨ics, h5, h⟩
  · exact mapE_error_class (fun x e hx => parseInputCoinEntry_error_class hx) _ _ h
  rcases bind_error_inv h with h | ⟨srl, h4, h⟩
  · exact asArr_error_class h
  rcases bind_error_inv h with h | ⟨reqs, h6, h⟩
  · exact mapE_error_class (fun x e hx => parseSpendRequestEntry_error_class hx) _ _ h
  · exact absurd (desc_parse_fields h1 h2 h3 h4 h5 h6) (by simp [hf])

theorem rawCoinAndPuzzle_error_class {s : Json} {e : Err}
    (h : rawCoinAndPuzzle s = .error e) : isMalformedClass e = true := by
  unfold rawCoinAndPuzzle at h
  rcases bind_error_inv h with h | ⟨ic, hic, h⟩
  · exact get_error_class h
  rcases bind_error_inv h with h | ⟨a1, ha1, h⟩
  · exact get_error_class h
  rcases bind_error_inv h with h | ⟨s1, hs1, h⟩
  · exact asStr_error_class h
  rcases bind_error_inv h with h | ⟨b1, hb1, h⟩
  · exact hexstr_error_class h
  rcases bind_error_inv h with h | ⟨a2, ha2, h⟩
  · exact get_error_class h
  rcases bind_error_inv h with h | ⟨s2, hs2, h⟩
  · exact asStr_error_class h
  rcases bind_error_inv h with h | ⟨b2, hb2, h⟩
  · exact hexstr_error_class h
  rcases bind_error_inv h with h | ⟨a3, ha3, h⟩
  · exact get_error_class h
  rcases bind_error_inv h with h | ⟨n3, hn3, h⟩
  · exact asNum_error_class h
  rcases bind_error_inv h with h | ⟨amt, hamt, h⟩
  · exact uint64OfInt_error_class h
  rcases bind_error_inv h with h | ⟨a4, ha4, h⟩
  · exact get_error_class h
  rcases bind_error_inv h with h | ⟨s4, hs4, h⟩
  · exact asStr_error_class h
  · simp at h

theorem rawCoinAndPuzzle_ok_fields {s : Json} {cp : Coin × Program}
    (h : rawCoinAndPuzzle s = .ok cp) : rawFieldsOK s = true := by
  unfold rawCoinAndPuzzle at h
  obtain ⟨ic, hic, h⟩ := bind_ok_inv h
  obtain ⟨a1, ha1, h⟩ := bind_ok_inv h
  obtain ⟨s1, hs1, h⟩ := bind_ok_inv h
  obtain ⟨b1, hb1, h⟩ := bind_ok_inv h
  obtain ⟨a2, ha2, h⟩ := bind_ok_inv h
  obtain ⟨s2, hs2, h⟩ := bind_ok_inv h
  obtain ⟨b2, hb2, h⟩ := bind_ok_inv h
  obtain ⟨a3, ha3, h⟩ := bind_ok_inv h
  obtain ⟨n3, hn3, h⟩ := bind_ok_inv h
  obtain ⟨amt, hamt, h⟩ := bind_ok_inv h
  obtain ⟨a4, ha4, h⟩ := bind_ok_inv h
  simp only [rawFieldsOK, get_ok_getD hic, Bool.and_eq_true]
  exact ⟨⟨⟨⟨get_ok_hasKeyB hic, get_ok_hasKeyB ha1⟩, get_ok_hasKeyB ha2⟩,
    get_ok_hasKeyB ha3⟩, get_ok_hasKeyB ha4⟩

theorem rawSpend_ok_fields {s : Json} {cs : CoinSolution}
    (h : rawSpend s = .ok cs) : rawFieldsOK s = true := by
  unfold rawSpend at h
  obtain ⟨cp, hcp, h⟩ := bind_ok_inv h
  exact rawCoinAndPuzzle_ok_fields hcp

theorem rawSpend_error_class {s : Json} {e : Err}
    (hf : rawFieldsOK s = false) (h : rawSpend s = .error e) :
    isMalformedClass e = true := by
  unfold rawSpend at h
  rcases bind_error_inv h with h | ⟨cp, hcp, h⟩
  · exact rawCoinAndPuzzle_error_class h
  · exact absurd (rawCoinAndPuzzle_ok_fields hcp) (by simp [hf])

theorem parseSpend_ok_fields {s : Json} {cs : List CoinSolution}
    (h : parseSpend s = .ok cs) : requiredFieldsOK s = true := by
  cases s with
  | num n =>
    unfold parseSpend at h
    rw [show pyIn kSpendRequests (.num n) = .error .typeError from rfl,
      error_bind] at h
    simp at h
  | str s0 => rfl
  | arr xs => rfl
  | obj kvs =>
    unfold parseSpend at h
    rw [pyIn_obj, ok_bind] at h
    cases hk1 : (Json.obj kvs).hasKeyB kSpendRequests with
    | true =>
      rw [hk1, if_pos rfl] at h
      simp [requiredFieldsOK, hk1, descriptiveSpend_ok_fields h]
    | false =>
      rw [hk1, if_neg (by simp), pyIn_obj, ok_bind] at h
      cases hk2 : (Json.obj kvs).hasKeyB kSolution with
      | true =>
        rw [hk2, if_pos rfl] at h
        obtain ⟨cs1, hcs1, h⟩ := bind_ok_inv h
        simp [requiredFieldsOK, hk1, hk2, rawSpend_ok_fields hcs1]
      | false => simp [requiredFieldsOK, hk1, hk2]

theorem parseSpend_missing_fails (s : Json)
    (hreq : requiredFieldsOK s = false) :
    ∃ e, parseSpend s = .error e ∧ isMalformedClass e = true := by
  cases hps : parseSpend s with
  | ok cs => exact absurd (parseSpend_ok_fields hps) (by simp [hreq])
  | error e =>
    refine ⟨e, rfl, ?_⟩
    cases s with
    | num n => simp [requiredFieldsOK, Json.hasKeyB] at hreq
    | str s0 => simp [requiredFieldsOK, Json.hasKeyB] at hreq
    | arr xs => simp [requiredFieldsOK, Json.hasKeyB] at hreq
    | obj kvs =>
      unfold parseSpend at hps
      rw [pyIn_obj, ok_bind] at hps
      cases hk1 : (Json.obj kvs).hasKeyB kSpendRequests with
      | true =>
        rw [hk1, if_pos rfl] at hps
        simp only [requiredFieldsOK, hk1, Bool.not_true, Bool.false_or,
          Bool.true_or, Bool.and_true] at hreq
        exact descriptiveSpend_error_class hreq hps
      | false =>
        rw [hk1, if_neg (by simp), pyIn_obj, ok_bind] at hps
        cases hk2 : (Json.obj kvs).hasKeyB kSolution with
        | true =>
          rw [hk2, if_pos rfl] at hps
          simp only [requiredFieldsOK, hk1, hk2, Bool.not_false,
            Bool.true_or, Bool.true_and, Bool.false_or, Bool.not_true] at hreq
          rcases bind_error_inv hps with hps | ⟨cs1, hcs1, hps⟩
          · exact rawSpend_error_class hreq hps
          · simp at hps
        | false =>
          simp [requiredFieldsOK, hk1, hk2] at hreq

theorem processSpends_error (pre post : List Json) (s : Json) (e : Err)
    (hpre : ∀ t ∈ pre, ∃ cs, parseSpend t = .ok cs)
    (hs : parseSpend s = .error e) :
    processSpends (pre ++ s :: post) = .error e := by
  induction pre with
  | nil =>
    simp only [List.nil_append, processSpends]
    rw [hs, error_bind]
  | cons t pre ih =>
    obtain ⟨cs, hcs⟩ := hpre t (by simp)
    simp only [List.cons_append, processSpends, List.append_eq]
    rw [hcs, ok_bind, ih (fun x hx => hpre x (by simp [hx])), error_bind]

/-! ## Claim C8: missing required fields and error propagation -/

/-- C8: an entry that selects a spend form but is missing a required
field makes `parseSpend` fail with an error of the
`MalformedDescription` class (never contributing a silently truncated
result); a missing leading field (`input_coins` / `input_coin`) fails
with `malformedDescription` itself; and any entry failure — including
the Assembler's and the raw form's fatal errors — propagates through
`create_unsigned_tx_from_json` unchanged. -/
theorem c8_missing_fields_and_propagation :
    (∀ s : Json, requiredFieldsOK s = false →
      ∃ e, parseSpend s = .error e ∧ isMalformedClass e = true) ∧
    (∀ s : Json, pyIn kSpendRequests s = .ok true →
      s.get kInputCoins = .error .malformedDescription →
      parseSpend s = .error .malformedDescription) ∧
    (∀ s : Json, pyIn kSpendRequests s = .ok false →
      pyIn kSolution s = .ok true →
      s.get kInputCoin = .error .malformedDescription →
      parseSpend s = .error .malformedDescription) ∧
    (∀ (d : Json) (pre post : List Json) (s : Json) (e : Err),
      d.get kSpends = .ok (.arr (pre ++ s :: post)) →
      (∀ t ∈ pre, ∃ cs, parseSpend t = .ok cs) →
      parseSpend s = .error e →
      create_unsigned_tx_from_json d = .error e) := by
  refine ⟨parseSpend_missing_fails, ?_, ?_, ?_⟩
  · intro s h1 h2
    unfold parseSpend
    rw [h1, ok_bind, if_pos rfl]
    unfold descriptiveSpend
    rw [h2, error_bind]
  · intro s h1 h2 h3
    unfold parseSpend
    rw [h1, ok_bind, if_neg (by simp), h2, ok_bind, if_pos rfl]
    unfold rawSpend rawCoinAndPuzzle
    rw [h3, error_bind, error_bind, error_bind]
  · intro d pre post s e hget hpre hs
    unfold create_unsigned_tx_from_json
    rw [hget, ok_bind,
      show (Json.arr (pre ++ s :: post)).asArr = .ok (pre ++ s :: post)
        from rfl,
      ok_bind, processSpends_error pre post s e hpre hs, error_bind]

/-- C8 witness: a description whose single entry has `spend_requests`
but no `input_coins` fails with `malformedDescription`. -/
theorem c8_missing_fields_witness :
    create_unsigned_tx_from_json exMissingDesc =
      .error .malformedDescription :=
  c8_missing_fields_and_propagation.2.2.2 exMissingDesc [] []
    exMissingEntry .malformedDescription rfl (by simp)
    (c8_missing_fields_and_propagation.2.1 exMissingEntry rfl rfl)

/-! ## Claim C9: bundles are unsigned -/

/-- C9: every SpendBundle the parser returns carries the group-identity
(infinity) aggregated signature. -/
theorem c9_signature_is_infinity (d : Json) (b : SpendBundle)
    (h : create_unsigned_tx_from_json d = .ok b) :
    b.aggregated_signature = g2Infinity := by
  unfold create_unsigned_tx_from_json at h
  obtain ⟨j, hj, h⟩ := bind_ok_inv h
  obtain ⟨l, hl, h⟩ := bind_ok_inv h
  obtain ⟨spends, hs, h⟩ := bind_ok_inv h
  simp only [Except.ok.injEq] at h
  rw [← h]

/-- C9 witness: the empty description yields the identity signature. -/
theorem c9_signature_is_infinity_witness :
    ∃ b, create_unsigned_tx_from_json exEmptyDesc = .ok b ∧
      b.aggregated_signature = g2Infinity :=
  ⟨{ coin_solutions := [], aggregated_signature := g2Infinity }, rfl,
    c9_signature_is_infinity exEmptyDesc _ rfl⟩

theorem processSpends_skip (l : List Json)
    (hl : ∀ s ∈ l, ∃ kvs, s = .obj kvs ∧
      Json.hasKeyB s kSpendRequests = false ∧
      Json.hasKeyB s kSolution = false) :
    processSpends l = .ok [] := by
  induction l with
  | nil => rfl
  | cons s rest ih =>
    obtain ⟨kvs, rfl, h1, h2⟩ := hl s (List.mem_cons_self s rest)
    simp only [processSpends]
    rw [show parseSpend (.obj kvs) =
          pyIn kSpendRequests (.obj kvs) >>= (fun b =>
            if b then descriptiveSpend (.obj kvs)
            else pyIn kSolution (.obj kvs) >>= (fun b2 =>
              if b2 then rawSpend (.obj kvs) >>= (fun cs => .ok [cs])
              else .ok [])) from rfl,
      pyIn_obj, h1, ok_bind, if_neg (by simp), pyIn_obj, h2, ok_bind,
      if_neg (by simp), ok_bind,
      ih (fun t ht => hl t (by simp [ht])), ok_bind]
    rfl

/-! ## Claim C10: entries matching neither form are skipped -/

/-- C10: a description whose `spends` entries are objects carrying
neither a `spend_requests` key nor a `solution` key (in particular, an
empty `spends` list) parses successfully to a bundle with an empty
coin-solution sequence and the identity signature — every such entry is
silently omitted. -/
theorem c10_skipped_entries (d : Json) (l : List Json)
    (hget : d.get kSpends = .ok (.arr l))
    (hl : ∀ s ∈ l, ∃ kvs, s = .obj kvs ∧
      Json.hasKeyB s kSpendRequests = false ∧
      Json.hasKeyB s kSolution = false) :
    create_unsigned_tx_from_json d =
      .ok { coin_solutions := [], aggregated_signature := g2Infinity } := by
  unfold create_unsigned_tx_from_json
  rw [hget, ok_bind, show (Json.arr l).asArr = .ok l from rfl, ok_bind,
    processSpends_skip l hl, ok_bind]

/-- C10 witness: the empty `spends` list. -/
theorem c10_skipped_entries_witness :
    create_unsigned_tx_from_json exEmptyDesc =
      .ok { coin_solutions := [], aggregated_signature := g2Infinity } :=
  c10_skipped_entries exEmptyDesc [] rfl (by simp)

end ChiaTx
